import Mathlib

/-!
Verification development for the knowledge-retrieval engine of the
dream-business repository.

The subsystem under study lives in
  app/rag_engine.py            (RAGEngine façade, dream-business-analysis-ai)
  app/rag_engine_fallback.py   (FallbackRAGEngine, the lexical TF-IDF backend)
  app/rag_engine.py            (ChromaDBWrapper, baby-care-ai)

The shallow embedding below translates the control flow and data handling of
those Python classes into executable Lean definitions.  Calls into external
libraries (sklearn TfidfVectorizer / cosine_similarity, HuggingFace
embeddings, ChromaDB client operations, the filesystem) are modelled as
components of an explicit environment record: initialization-time library
calls are total functions of the environment, query-time library calls are
fallible (Except), mirroring which Python exceptions the engine code
catches where.  Scores are rationals.
-/

namespace DreamRag

/-- Document / chunk metadata, as built by `_load_documents_from_directory`:
`{"source": str(file_path), "type": doc_type, "filename": file_path.name}`. -/
structure Metadata where
  source : String
  type : String
  filename : String
deriving DecidableEq, Repr

/-- A document (or chunk) held by either backend: `content` plus `metadata`. -/
structure Doc where
  content : String
  metadata : Metadata
deriving DecidableEq, Repr

/-- One formatted search result, as returned by `search_knowledge`:
`{"content": ..., "metadata": ..., "relevance_score": ...}`. -/
structure SearchResult where
  content : String
  metadata : Metadata
  relevance_score : ℚ
deriving DecidableEq, Repr

/-- Python `str.strip()` on a character list: drop whitespace from both ends. -/
def pyStripL (l : List Char) : List Char :=
  ((l.dropWhile Char.isWhitespace).reverse.dropWhile Char.isWhitespace).reverse

/-- Python `str.strip()`. -/
def pyStrip (s : String) : String := ⟨pyStripL s.data⟩

/-- Python `str.lower()`. -/
def pyLower (s : String) : String := ⟨s.data.map Char.toLower⟩

/-- A source file of the knowledge-base directory tree.  `dirType` is the
doc type tag attached by `load_knowledge_base` according to which category
subdirectory the file lives in; `ext` is the file suffix; `content` is the
text that reading (and, for `.json`, `_extract_text_from_dict`) yields. -/
structure RawFile where
  path : String
  fname : String
  ext : String
  dirType : String
  content : String
deriving DecidableEq, Repr

/-- A fitted TF-IDF vectorizer (sklearn `TfidfVectorizer` after `fit`),
kept abstract: `transform` maps a text to its term-weight vector and is
fallible, modelling that a query-time library exception may be raised
(the engine catches it). -/
structure Vectorizer where
  transform : String → Except String (List ℚ)

/-- The environment: every external collaborator the engine code invokes.
Initialization-time calls are total, query-time calls fallible. -/
structure Env where
  /-- The knowledge-base directory tree, flattened. -/
  corpus : List RawFile
  /-- Whether the ChromaDB dependency imports at module load succeeded
  (`CHROMADB_AVAILABLE`). -/
  chromadbAvailable : Bool
  /-- Combined outcome of the semantic-side setup performed by
  `_initialize_chromadb`: HuggingFace embeddings construction, text-splitter
  construction, the cascade of ChromaDB client strategies and collection
  opening.  `Except.error` means the last strategy raised. -/
  semanticSetup : Except String Unit
  /-- Documents already present in the persisted Chroma collection when it
  is opened. -/
  existingCollection : List Doc
  /-- Whether `self.vectorstore._collection.count()` succeeds
  (on failure the code loads the knowledge base anyway). -/
  countCheckOk : Bool
  /-- Whether the delete-by-ids pass of `rebuild_knowledge_base` succeeds. -/
  deleteOk : Bool
  /-- Whether, after delete-by-ids failed, deleting and recreating the
  collection succeeds. -/
  recreateOk : Bool
  /-- Configured `chunk_size`. -/
  chunkSize : Nat
  /-- Configured `chunk_overlap`. -/
  chunkOverlap : Nat
  /-- sklearn `TfidfVectorizer(...).fit_transform(texts)`: returns the
  fitted vectorizer together with the row matrix for `texts`. -/
  fitTransform : List String → Vectorizer × List (List ℚ)
  /-- sklearn `cosine_similarity` of a query vector against one row. -/
  cosSim : List ℚ → List ℚ → ℚ
  /-- `self.vectorstore.similarity_search_with_score(query, k, filter)` on
  the semantic backend: external, may raise. -/
  semanticSearch : List Doc → String → Nat → Option String → Except String (List (Doc × ℚ))

/-! ## Loading documents (`load_knowledge_base` / `_load_documents_from_directory`)

The fallback loader reads `.md`/`.txt` files directly and extracts text from
`.json`; a file whose extracted content is whitespace-only is skipped
(`if content.strip()`).  The ChromaDB-side loader reads only `.md`/`.txt`. -/

/-- The document record built for one accepted file. -/
def mkDoc (f : RawFile) : Doc :=
  { content := f.content
    metadata := { source := f.path, type := f.dirType, filename := f.fname } }

/-- `FallbackRAGEngine.load_knowledge_base`: whole files become documents;
no splitting of any kind is applied. -/
def loadKnowledgeBase (corpus : List RawFile) : List Doc :=
  corpus.filterMap fun f =>
    if (f.ext = ".md" ∨ f.ext = ".txt" ∨ f.ext = ".json") ∧ pyStrip f.content ≠ "" then
      some (mkDoc f)
    else none

/-- `RAGEngine.load_knowledge_base` document collection step (before
splitting): only `.md` and `.txt` files are read. -/
def loadSemanticDocs (corpus : List RawFile) : List Doc :=
  corpus.filterMap fun f =>
    if f.ext = ".md" ∨ f.ext = ".txt" then some (mkDoc f) else none

/-! ## The Chunker

Modelled from the spec: the Chunker (langchain `RecursiveCharacterTextSplitter`,
which is not part of src/) splits text "using an ordered list of separator
patterns (paragraph, line, then sentence-level punctuation, falling back to
raw character boundaries), preferring the earliest separator that yields
pieces within a configured maximum size", with a configured trailing overlap
carried into the next chunk at the character-boundary level. -/

/-- Split a character list on a separator character (separator dropped). -/
def splitOnChar (sep : Char) : List Char → List (List Char)
  | [] => [[]]
  | c :: rest =>
    match splitOnChar sep rest with
    | [] => [[c]]
    | h :: t => if c = sep then [] :: h :: t else (c :: h) :: t

/-- Fixed-size character windows of width `size`, advancing by `step`
(so `size - step` trailing characters of each window reopen the next one);
`fuel` bounds the recursion by the text length. -/
def charWindows (size step : Nat) : Nat → List Char → List (List Char)
  | 0, _ => []
  | _, [] => []
  | fuel + 1, l =>
    l.take size :: (if l.length ≤ size then [] else charWindows size step fuel (l.drop step))

/-- Modelled from the spec: separator levels tried in order (line, then
sentence-level punctuation, then space), before the raw character fallback. -/
def chunkSeps : List Char := ['\n', '。', '！', '？', ' ']

/-- Modelled from the spec: split one text into chunks of at most `size`
characters, preferring the earliest separator level whose pieces all fit. -/
def chunkText (size step : Nat) (cs : List Char) : List (List Char) :=
  if cs.length ≤ size then [cs]
  else
    match chunkSeps.find? (fun sep => (splitOnChar sep cs).all fun p => p.length ≤ size) with
    | some sep => splitOnChar sep cs
    | none => charWindows size step cs.length cs

/-- Chunking one document: every chunk carries the parent metadata. -/
def splitDocument (size step : Nat) (d : Doc) : List Doc :=
  (chunkText size step d.content.data).map fun cs => { content := ⟨cs⟩, metadata := d.metadata }

/-- The chunk corpus the semantic index stores:
`text_splitter.split_documents(documents)` over the loaded documents. -/
def chunkCorpus (env : Env) : List Doc :=
  (loadSemanticDocs env.corpus).flatMap
    (splitDocument env.chunkSize (env.chunkSize - env.chunkOverlap))

/-! ## The lexical fallback engine (`FallbackRAGEngine`) -/

/-- The mutable state of a `FallbackRAGEngine` instance. -/
structure FallbackState where
  documents : List Doc
  vectorizer : Option Vectorizer
  tfidfMatrix : List (List ℚ)

/-- `FallbackRAGEngine.initialize`: load the knowledge base; if any
documents were found, fit the TF-IDF vectorizer over their contents. -/
def fallbackInitialize (env : Env) : FallbackState :=
  let docs := loadKnowledgeBase env.corpus
  if docs.isEmpty then
    { documents := docs, vectorizer := none, tfidfMatrix := [] }
  else
    let fitted := env.fitTransform (docs.map (·.content))
    { documents := docs, vectorizer := some fitted.1, tfidfMatrix := fitted.2 }

/-- Insert a scored document into a list kept in descending score order. -/
def insertDesc (p : ℚ × Doc) : List (ℚ × Doc) → List (ℚ × Doc)
  | [] => [p]
  | q :: rest => if q.1 ≤ p.1 then p :: q :: rest else q :: insertDesc p rest

/-- Sort scored documents by score, descending.  This models
`np.argsort(similarities)[::-1]` followed by indexing back into the
candidate list (the order among equal scores is unspecified in numpy's
default quicksort; insertion sort fixes one such order). -/
def sortDesc : List (ℚ × Doc) → List (ℚ × Doc)
  | [] => []
  | p :: rest => insertDesc p (sortDesc rest)

/-- The tail of `FallbackRAGEngine.search_knowledge`: rank the candidates
by similarity descending, truncate to `k`, and keep only strictly positive
scores (`if similarities[idx] > 0`). -/
def rankResults (sims : List ℚ) (docs : List Doc) (k : Nat) : List SearchResult :=
  (((sortDesc (sims.zip docs)).take k).filter fun p => 0 < p.1).map fun p =>
    { content := p.2.content, metadata := p.2.metadata, relevance_score := p.1 }

/-- `vectorizer.transform(texts)` on a batch of texts: the row for each
text, raising as soon as any single transform raises. -/
def transformAll (v : Vectorizer) : List String → Except String (List (List ℚ))
  | [] => .ok []
  | s :: rest =>
    match v.transform s with
    | .error e => .error e
    | .ok vec =>
      match transformAll v rest with
      | .error e => .error e
      | .ok vecs => .ok (vec :: vecs)

/-- `FallbackRAGEngine.search_knowledge`.  Early `[]` when the vectorizer
was never built or no documents are loaded; with a (truthy) type filter
the candidate set is filtered first and its TF-IDF rows are recomputed by
`vectorizer.transform`; any exception inside the body yields `[]`.
Python's `if filter_type:` is falsy for `None` and for the empty string,
so a `some ""` filter takes the unfiltered path. -/
def fallbackSearch (env : Env) (st : FallbackState) (query : String) (k : Nat) :
    Option String → List SearchResult
  | some ft =>
    if st.vectorizer.isNone ∨ st.documents.isEmpty then []
    else
      match st.vectorizer with
      | none => []
      | some v =>
        if ft = "" then
          match v.transform query with
          | .error _ => []
          | .ok queryVec =>
            rankResults (st.tfidfMatrix.map (env.cosSim queryVec)) st.documents k
        else
          if (st.documents.filter fun d => d.metadata.type = ft).isEmpty then []
          else
            match v.transform query with
            | .error _ => []
            | .ok queryVec =>
              match transformAll v
                  ((st.documents.filter fun d => d.metadata.type = ft).map (·.content)) with
              | .error _ => []
              | .ok filteredTfidf =>
                rankResults (filteredTfidf.map (env.cosSim queryVec))
                  (st.documents.filter fun d => d.metadata.type = ft) k
  | none =>
    if st.vectorizer.isNone ∨ st.documents.isEmpty then []
    else
      match st.vectorizer with
      | none => []
      | some v =>
        match v.transform query with
        | .error _ => []
        | .ok queryVec =>
          rankResults (st.tfidfMatrix.map (env.cosSim queryVec)) st.documents k

/-- `FallbackRAGEngine.rebuild_knowledge_base`: reload the documents, then,
if any were found, refit `self.vectorizer` over their contents.  When
`self.vectorizer` is still `None` the attribute access raises, which the
final handler re-raises. -/
def fallbackRebuild (env : Env) (st : FallbackState) : Except String FallbackState :=
  let docs := loadKnowledgeBase env.corpus
  if docs.isEmpty then
    .ok { documents := docs, vectorizer := st.vectorizer, tfidfMatrix := st.tfidfMatrix }
  else
    match st.vectorizer with
    | none => .error "AttributeError: NoneType object has no attribute fit_transform"
    | some _ =>
      let fitted := env.fitTransform (docs.map (·.content))
      .ok { documents := docs, vectorizer := some fitted.1, tfidfMatrix := fitted.2 }

/-! ## The retrieval façade (`RAGEngine`, dream-business-analysis-ai)

After `initialize` the engine is in exactly one of two operating states:
either the ChromaDB path succeeded (`use_fallback == False`, vectorstore
set) or the fallback engine was constructed (`use_fallback == True`,
`fallback_engine` set).  We model the reachable states as a closed sum. -/

/-- The semantic backend state: the contents of the Chroma collection. -/
structure SemanticState where
  collection : List Doc
deriving DecidableEq, Repr

/-- The engine after initialization: semantic backend or lexical fallback. -/
inductive Engine where
  | semantic (ss : SemanticState)
  | lexical (fs : FallbackState)

/-- `RAGEngine._initialize_chromadb`: run the external setup (embeddings,
text splitter, client strategies, collection); if it succeeds and the
opened collection is empty, `load_knowledge_base` splits the source
documents into chunks and adds them.  If the collection count check itself
raises, the knowledge base is loaded anyway (appending to whatever the
collection holds). -/
def semanticInitialize (env : Env) : Except String SemanticState :=
  match env.semanticSetup with
  | .error e => .error e
  | .ok _ =>
    if env.countCheckOk then
      if env.existingCollection.isEmpty then
        .ok { collection := env.existingCollection ++ chunkCorpus env }
      else
        .ok { collection := env.existingCollection }
    else
      .ok { collection := env.existingCollection ++ chunkCorpus env }

/-- `RAGEngine.initialize`: if the ChromaDB dependencies are unavailable,
or any exception escapes `_initialize_chromadb`, fall back to the lexical
engine; otherwise the semantic backend is active. -/
def engineInitialize (env : Env) : Engine :=
  if env.chromadbAvailable then
    match semanticInitialize env with
    | .ok ss => .semantic ss
    | .error _ => .lexical (fallbackInitialize env)
  else .lexical (fallbackInitialize env)

/-- `RAGEngine.search_knowledge`: with the fallback active, dispatch to
`FallbackRAGEngine.search_knowledge`; otherwise call the vectorstore
similarity search, formatting `(doc, score)` pairs, and convert any raised
exception into `[]`. -/
def engineSearch (env : Env) (e : Engine) (query : String) (k : Nat)
    (filterType : Option String) : List SearchResult :=
  match e with
  | .lexical fs => fallbackSearch env fs query k filterType
  | .semantic ss =>
    match env.semanticSearch ss.collection query k filterType with
    | .error _ => []
    | .ok results =>
      results.map fun p =>
        { content := p.1.content, metadata := p.1.metadata, relevance_score := p.2 }

/-- `RAGEngine.rebuild_knowledge_base`.  Fallback state: dispatch to
`FallbackRAGEngine.rebuild_knowledge_base`.  Semantic state: delete every
existing document id; if that raises, delete (or fail to delete) and
recreate the collection; then `load_knowledge_base` adds the chunk corpus
to whatever the collection still holds. -/
def engineRebuild (env : Env) (e : Engine) : Except String Engine :=
  match e with
  | .lexical fs => (fallbackRebuild env fs).map .lexical
  | .semantic ss =>
    let cleared := if env.deleteOk ∨ env.recreateOk then [] else ss.collection
    .ok (.semantic { collection := cleared ++ chunkCorpus env })

/-- `chunk_count` as exposed by stats: the collection count for the
semantic backend, the loaded document count for the lexical one. -/
def chunkCount : Engine → Nat
  | .semantic ss => ss.collection.length
  | .lexical fs => fs.documents.length

/-! ## Category context (`get_dream_framework_context`) -/

/-- The fixed per-category query expansions (`component_queries`). -/
def componentQueries : List (String × String) :=
  [("demand", "需求分析 目标用户 市场规模 用户验证"),
   ("resolution", "解决方案 价值主张 产品内核 最小可行产品"),
   ("earning", "商业模式 单位经济学 盈利能力 财务模型"),
   ("acquisition", "增长策略 客户获取 AARRR漏斗 规模化"),
   ("moat", "竞争优势 壁垒 护城河 可防御性")]

/-- Association-list lookup (`dict.get`). -/
def assocLookup (key : String) : List (String × String) → Option String
  | [] => none
  | (k, v) :: rest => if k = key then some v else assocLookup key rest

/-- `component_queries.get(component.lower(), component)`. -/
def componentQuery (component : String) : String :=
  (assocLookup (pyLower component) componentQueries).getD component

/-- The accumulation loop of `get_dream_framework_context`:
`context += f"{result['content']}\n\n"` over the result list. -/
def contextConcat (rs : List SearchResult) : String :=
  rs.foldl (fun acc r => acc ++ r.content ++ "\n\n") ""

/-- `RAGEngine.get_dream_framework_context` (the fallback engine's version
is textually the same): expand the category, search with `k = 3` restricted
to type `"framework"`, concatenate contents, strip. -/
def getDreamFrameworkContext (env : Env) (e : Engine) (component : String) : String :=
  pyStrip (contextConcat (engineSearch env e (componentQuery component) 3 (some "framework")))

/-- Blank-line-separated concatenation, as the spec words it. -/
def blankLineJoin : List String → String
  | [] => ""
  | [s] => s
  | s :: rest => s ++ "\n\n" ++ blankLineJoin rest

/-! ## The semantic index adapter of baby-care-ai (`ChromaDBWrapper`) -/

/-- Decimal digit character. -/
def digitChar (d : Nat) : Char :=
  match d with
  | 0 => '0' | 1 => '1' | 2 => '2' | 3 => '3' | 4 => '4'
  | 5 => '5' | 6 => '6' | 7 => '7' | 8 => '8' | 9 => '9'
  | _ => '*'

/-- Little-endian decimal digits, with fuel bounding the recursion. -/
def natDigitsAux : Nat → Nat → List Nat
  | 0, _ => []
  | _, 0 => []
  | fuel + 1, n => (n % 10) :: natDigitsAux fuel (n / 10)

/-- Little-endian decimal digits of `n` (empty for `0`). -/
def natDigits (n : Nat) : List Nat := natDigitsAux n n

/-- Decimal rendering of a natural number (Python `str(int)`). -/
def natStr (n : Nat) : String :=
  if n = 0 then "0" else ⟨((natDigits n).map digitChar).reverse⟩

/-- The id generated for ordinal `i` at millisecond timestamp `t`:
`f"doc_{timestamp}_{i}"`. -/
def mkId (t i : Nat) : String := "doc_" ++ natStr t ++ "_" ++ natStr i

/-- One row handed to `collection.add`: parallel slices of the ids, texts,
metadatas and embeddings arrays. -/
structure Entry where
  id : String
  text : String
  metadata : Metadata
  embedding : List ℚ
deriving DecidableEq, Repr

/-- The external collaborators of `ChromaDBWrapper.add_documents`. -/
structure AddEnv where
  /-- `self.embedding_function.embed_documents(texts)`: may raise. -/
  embedDocuments : List String → Except String (List (List ℚ))
  /-- `self.collection.add(...)` for the batch with the given 0-based
  ordinal: may raise. -/
  collectionAdd : Nat → Except String Unit

/-- Slice a list into consecutive batches of `batch_size = 100`
(`for i in range(0, len(documents), batch_size)`); fuelled recursion. -/
def toBatchesAux : Nat → List Entry → List (List Entry)
  | 0, _ => []
  | _, [] => []
  | fuel + 1, l => l.take 100 :: toBatchesAux fuel (l.drop 100)

/-- The batches `add_documents` iterates over. -/
def toBatches (l : List Entry) : List (List Entry) := toBatchesAux l.length l

/-- The batch loop: add each batch in turn to the collection; a raised
exception propagates unchanged (after logging), abandoning the remaining
batches. -/
def addBatchLoop (env : AddEnv) : List (List Entry) → Nat → List Entry →
    Except String (List Entry)
  | [], _, col => .ok col
  | b :: rest, n, col =>
    match env.collectionAdd n with
    | .error e => .error e
    | .ok _ => addBatchLoop env rest (n + 1) (col ++ b)

/-- The id/text/metadata/embedding rows of one `add_documents` call. -/
def mkEntries (t : Nat) (docs : List Doc) (embeddings : List (List ℚ)) : List Entry :=
  (((List.range docs.length).map (mkId t)).zip (docs.zip embeddings)).map fun p =>
    { id := p.1, text := p.2.1.content, metadata := p.2.1.metadata, embedding := p.2.2 }

/-- `ChromaDBWrapper.add_documents`: early return on an empty document
list; otherwise compute ids and embeddings and add in batches of 100.
`col` is the current collection contents; on success the new contents are
returned, and a raised exception propagates as `Except.error`. -/
def addDocuments (env : AddEnv) (t : Nat) (docs : List Doc) (col : List Entry) :
    Except String (List Entry) :=
  if docs.isEmpty then .ok col
  else
    match env.embedDocuments (docs.map (·.content)) with
    | .error e => .error e
    | .ok embeddings => addBatchLoop env (toBatches (mkEntries t docs embeddings)) 0 col

/-! ## Concrete instances used by the witness theorems -/

/-- Value of a little-endian decimal digit list (left inverse of `natDigits`). -/
def ofDigs : List Nat → Nat
  | [] => 0
  | d :: rest => d + 10 * ofDigs rest

/-- A concrete fitted vectorizer: one-component vectors (text length). -/
def demoVectorizer : Vectorizer := ⟨fun s => .ok [(s.data.length : ℚ)]⟩

/-- A vectorizer whose `transform` always raises. -/
def demoFailVectorizer : Vectorizer := ⟨fun _ => .error "transform raised"⟩

/-- A tiny two-file knowledge-base corpus. -/
def demoCorpus : List RawFile :=
  [{ path := "data/frameworks/dream.md", fname := "dream.md", ext := ".md",
     dirType := "framework", content := "DREAM需求分析框架" },
   { path := "data/case_studies/case.md", fname := "case.md", ext := ".md",
     dirType := "case_study", content := "案例研究内容" }]

/-- A concrete environment in which every semantic strategy fails. -/
def demoEnv : Env :=
  { corpus := demoCorpus
    chromadbAvailable := false
    semanticSetup := .error "all client strategies failed"
    existingCollection := []
    countCheckOk := true
    deleteOk := true
    recreateOk := true
    chunkSize := 4
    chunkOverlap := 1
    fitTransform := fun texts => (demoVectorizer, texts.map fun s => [(s.data.length : ℚ)])
    cosSim := fun _ b => b.headD 0
    semanticSearch := fun _ _ _ _ => .error "backend raised" }

/-- A fallback state whose vectorizer raises on every `transform`. -/
def demoFailState : FallbackState :=
  { documents := loadKnowledgeBase demoCorpus
    vectorizer := some demoFailVectorizer
    tfidfMatrix := [[1], [1]] }

/-- Boolean check that a score list is in (weakly) descending order. -/
def sortedDescBool : List ℚ → Bool
  | [] => true
  | [_] => true
  | a :: b :: rest => decide (b ≤ a) && sortedDescBool (b :: rest)

/-- Structural form of the `get_dream_framework_context` accumulation. -/
def joinAll : List SearchResult → String
  | [] => ""
  | r :: rest => r.content ++ "\n\n" ++ joinAll rest

/-- `joinAll` at the character-list level. -/
def joinL : List (List Char) → List Char
  | [] => []
  | cs :: rest => cs ++ '\n' :: '\n' :: joinL rest

/-- `blankLineJoin` at the character-list level. -/
def blankJoinL : List (List Char) → List Char
  | [] => []
  | [cs] => cs
  | cs :: rest => cs ++ '\n' :: '\n' :: blankJoinL rest

/-- A nonempty string with no leading or trailing whitespace. -/
def trimmedNE (s : String) : Prop :=
  s.data ≠ [] ∧ (s.data.headD 'x').isWhitespace = false ∧
    (s.data.reverse.headD 'x').isWhitespace = false

instance (s : String) : Decidable (trimmedNE s) := by
  unfold trimmedNE; infer_instance

/-- Precondition under which a rebuild proceeds normally: on the lexical
side the vectorizer exists (else the refit raises) or the corpus loads
empty; on the semantic side one of the two collection-clearing paths
succeeds. -/
def rebuildSafe (env : Env) : Engine → Prop
  | .semantic _ => env.deleteOk = true ∨ env.recreateOk = true
  | .lexical fs => fs.vectorizer.isSome = true ∨ loadKnowledgeBase env.corpus = []

/-- `demoEnv` with the semantic side healthy. -/
def demoSemEnv : Env :=
  { demoEnv with chromadbAvailable := true, semanticSetup := .ok () }

/-- An add environment whose embeddings succeed but whose every
`collection.add` raises a digit-free error message. -/
def demoAddEnvFail : AddEnv :=
  { embedDocuments := fun texts => .ok (texts.map fun _ => [1])
    collectionAdd := fun _ => .error "storage offline" }

/-- A concrete document for the `add_documents` witnesses. -/
def demoDoc : Doc :=
  { content := "宝宝护理知识"
    metadata := { source := "data/knowledge/k1.md", type := "knowledge", filename := "k1.md" } }

/-- The document the loaders build from the first demo corpus file. -/
def demoFrameworkDoc : Doc :=
  { content := "DREAM需求分析框架"
    metadata := { source := "data/frameworks/dream.md", type := "framework",
                  filename := "dream.md" } }

/-- The search result the demo corpus produces for a one-character query
restricted to type `"framework"`. -/
def demoResult : SearchResult :=
  { content := "DREAM需求分析框架"
    metadata := { source := "data/frameworks/dream.md", type := "framework",
                  filename := "dream.md" }
    relevance_score := 11 }

/-! # Theorems -/

/-- C10. Calling the semantic index's add operation with an empty document
list is a no-op: it returns without error and leaves the backing collection
unchanged; no environment operation (embedding or insert) is consulted. -/
theorem addDocuments_empty_noop (env : AddEnv) (t : Nat) (col : List Entry) :
    addDocuments env t [] col = .ok col := rfl

/-- C9. Search on a freshly initialized but unpopulated index — the corpus
loads no documents, or more generally the vectorizer was never built or the
document list is empty — returns `[]` rather than raising. -/
theorem fallbackSearch_empty_index (env : Env) (q : String) (k : Nat)
    (tf : Option String) (st : FallbackState)
    (hempty : loadKnowledgeBase env.corpus = [])
    (hst : st.vectorizer = none ∨ st.documents = []) :
    fallbackSearch env (fallbackInitialize env) q k tf = [] ∧
    fallbackSearch env st q k tf = [] := by
  constructor
  · cases tf <;> simp [fallbackInitialize, hempty, fallbackSearch]
  · rcases hst with h | h <;> cases tf <;> simp [fallbackSearch, h]

/-- Witness for C9 at a concrete empty corpus and a concrete bare state. -/
theorem fallbackSearch_empty_index_witness :
    fallbackSearch { demoEnv with corpus := [] }
      (fallbackInitialize { demoEnv with corpus := [] }) "喂奶次数" 5 none = [] ∧
    fallbackSearch { demoEnv with corpus := [] }
      { documents := [], vectorizer := none, tfidfMatrix := [] } "喂奶次数" 5 none = [] :=
  fallbackSearch_empty_index _ _ _ _ _ rfl (Or.inl rfl)

/-- C1. If the semantic dependencies are unavailable, or every embedding /
vector-store initialization strategy fails, `initialize` does not raise:
the engine's active backend becomes Lexical and every subsequent search
call is dispatched to the lexical fallback backend. -/
theorem engineInitialize_total_fallback (env : Env) (q : String) (k : Nat)
    (tf : Option String)
    (h : env.chromadbAvailable = false ∨ ∃ m, semanticInitialize env = .error m) :
    engineInitialize env = .lexical (fallbackInitialize env) ∧
    engineSearch env (engineInitialize env) q k tf =
      fallbackSearch env (fallbackInitialize env) q k tf := by
  have hinit : engineInitialize env = .lexical (fallbackInitialize env) := by
    rcases h with h | ⟨m, hm⟩
    · simp [engineInitialize, h]
    · cases hc : env.chromadbAvailable <;> simp [engineInitialize, hc, hm]
  exact ⟨hinit, by rw [hinit]; rfl⟩

/-- Witness for C1: in `demoEnv` the ChromaDB import failed, so the engine
is lexical and search dispatches to the fallback. -/
theorem engineInitialize_total_fallback_witness :
    engineInitialize demoEnv = .lexical (fallbackInitialize demoEnv) ∧
    engineSearch demoEnv (engineInitialize demoEnv) "需求分析" 5 none =
      fallbackSearch demoEnv (fallbackInitialize demoEnv) "需求分析" 5 none :=
  engineInitialize_total_fallback demoEnv "需求分析" 5 none (Or.inl rfl)

/-- C2. Search never raises: when the active backend throws during the
query — the semantic vectorstore search raises, or the lexical vectorizer's
`transform` raises — the exception is caught and `[]` is returned, so the
caller always receives a (possibly empty) result list. -/
theorem engineSearch_catches_backend_errors (env : Env) (ss : SemanticState)
    (fs : FallbackState) (v : Vectorizer) (q : String) (k : Nat)
    (tf : Option String) (m m2 : String)
    (hsem : env.semanticSearch ss.collection q k tf = .error m)
    (hv : fs.vectorizer = some v)
    (ht : v.transform q = .error m2) :
    engineSearch env (.semantic ss) q k tf = [] ∧
    engineSearch env (.lexical fs) q k tf = [] := by
  constructor
  · simp [engineSearch, hsem]
  · show fallbackSearch env fs q k tf = []
    cases tf with
    | none =>
      simp only [fallbackSearch]
      by_cases hne : fs.vectorizer.isNone ∨ fs.documents.isEmpty
      · rw [if_pos hne]
      · rw [if_neg hne]
        simp [hv, ht]
    | some ft =>
      simp only [fallbackSearch]
      by_cases hne : fs.vectorizer.isNone ∨ fs.documents.isEmpty
      · rw [if_pos hne]
      · rw [if_neg hne]
        by_cases hft : ft = ""
        · simp [hv, hft, ht]
        · by_cases hf : (fs.documents.filter fun d => d.metadata.type = ft) = []
          · simp [hv, hft, hf]
          · simp [hv, hft, List.isEmpty_iff, hf, ht]

/-- Witness for C2: a semantic backend whose query raises and a lexical
state whose vectorizer raises; both searches return `[]`. -/
theorem engineSearch_catches_backend_errors_witness :
    engineSearch demoEnv (.semantic { collection := [] }) "产品内核" 4 none = [] ∧
    engineSearch demoEnv (.lexical demoFailState) "产品内核" 4 none = [] :=
  engineSearch_catches_backend_errors demoEnv { collection := [] } demoFailState
    demoFailVectorizer "产品内核" 4 none "backend raised" "transform raised" rfl rfl rfl

lemma mem_insertDesc {p x : ℚ × Doc} {l : List (ℚ × Doc)} :
    x ∈ insertDesc p l ↔ x = p ∨ x ∈ l := by
  induction l with
  | nil => simp [insertDesc]
  | cons q rest ih =>
    by_cases h : q.1 ≤ p.1
    · simp [insertDesc, h]
    · simp [insertDesc, h, ih]
      tauto

lemma pairwise_insertDesc {p : ℚ × Doc} {l : List (ℚ × Doc)}
    (hl : l.Pairwise fun a b => b.1 ≤ a.1) :
    (insertDesc p l).Pairwise fun a b => b.1 ≤ a.1 := by
  induction l with
  | nil => simp [insertDesc]
  | cons q rest ih =>
    rcases List.pairwise_cons.mp hl with ⟨hq, hrest⟩
    by_cases h : q.1 ≤ p.1
    · rw [insertDesc, if_pos h]
      refine List.pairwise_cons.mpr ⟨?_, hl⟩
      intro x hx
      rcases List.mem_cons.mp hx with rfl | hx
      · exact h
      · exact le_trans (hq x hx) h
    · rw [insertDesc, if_neg h]
      refine List.pairwise_cons.mpr ⟨?_, ih hrest⟩
      intro x hx
      rcases mem_insertDesc.mp hx with rfl | hx
      · exact le_of_lt (lt_of_not_le h)
      · exact hq x hx

lemma pairwise_sortDesc (l : List (ℚ × Doc)) :
    (sortDesc l).Pairwise fun a b => b.1 ≤ a.1 := by
  induction l with
  | nil => exact List.Pairwise.nil
  | cons p rest ih => exact pairwise_insertDesc ih

lemma mem_sortDesc {x : ℚ × Doc} {l : List (ℚ × Doc)} :
    x ∈ sortDesc l ↔ x ∈ l := by
  induction l with
  | nil => simp [sortDesc]
  | cons p rest ih => simp [sortDesc, mem_insertDesc, ih]

lemma rankResults_length_le (sims : List ℚ) (docs : List Doc) (k : Nat) :
    (rankResults sims docs k).length ≤ k := by
  unfold rankResults
  calc ((((sortDesc (sims.zip docs)).take k).filter fun p => 0 < p.1).map fun p =>
          ({ content := p.2.content, metadata := p.2.metadata,
             relevance_score := p.1 } : SearchResult)).length
      = (((sortDesc (sims.zip docs)).take k).filter fun p => 0 < p.1).length :=
        List.length_map _ _
    _ ≤ ((sortDesc (sims.zip docs)).take k).length := List.length_filter_le _ _
    _ ≤ k := by simp [List.length_take]

lemma rankResults_pos (sims : List ℚ) (docs : List Doc) (k : Nat) :
    ∀ r ∈ rankResults sims docs k, 0 < r.relevance_score := by
  intro r hr
  unfold rankResults at hr
  rcases List.mem_map.mp hr with ⟨p, hp, rfl⟩
  simpa using List.of_mem_filter hp

lemma rankResults_sorted (sims : List ℚ) (docs : List Doc) (k : Nat) :
    (rankResults sims docs k).Pairwise fun a b =>
      b.relevance_score ≤ a.relevance_score := by
  unfold rankResults
  refine List.pairwise_map.mpr ?_
  exact ((pairwise_sortDesc (sims.zip docs)).take.filter _)

lemma sortedDescBool_of_pairwise :
    ∀ l : List ℚ, (l.Pairwise fun a b => b ≤ a) → sortedDescBool l = true := by
  intro l h
  induction l with
  | nil => rfl
  | cons a rest ih =>
    cases rest with
    | nil => rfl
    | cons b t =>
      rcases List.pairwise_cons.mp h with ⟨ha, ht⟩
      simp only [sortedDescBool, Bool.and_eq_true, decide_eq_true_eq]
      exact ⟨ha b (List.mem_cons_self b t), ih ht⟩

lemma fallbackSearch_eq_nil_or_rank (env : Env) (st : FallbackState) (q : String)
    (k : Nat) (tf : Option String) :
    fallbackSearch env st q k tf = [] ∨
    ∃ sims docs, fallbackSearch env st q k tf = rankResults sims docs k := by
  cases tf with
  | none =>
    simp only [fallbackSearch]
    repeat' split
    all_goals first
      | exact Or.inl rfl
      | exact Or.inr ⟨_, _, rfl⟩
  | some ft =>
    simp only [fallbackSearch]
    repeat' split
    all_goals first
      | exact Or.inl rfl
      | exact Or.inr ⟨_, _, rfl⟩

/-- C6. Every lexical query returns only results with strictly positive
relevance score, in descending score order, truncated to at most `k`. -/
theorem fallbackSearch_ranking (env : Env) (st : FallbackState) (q : String)
    (k : Nat) (tf : Option String) :
    (fallbackSearch env st q k tf).length ≤ k ∧
    sortedDescBool ((fallbackSearch env st q k tf).map (·.relevance_score)) = true ∧
    (fallbackSearch env st q k tf).all (fun r => decide (0 < r.relevance_score)) = true := by
  rcases fallbackSearch_eq_nil_or_rank env st q k tf with h | ⟨sims, docs, h⟩ <;> rw [h]
  · exact ⟨Nat.zero_le k, rfl, rfl⟩
  · refine ⟨rankResults_length_le sims docs k, ?_, ?_⟩
    · exact sortedDescBool_of_pairwise _
        (List.pairwise_map.mpr ((rankResults_sorted sims docs k).imp (fun hab => hab)))
    · simp only [List.all_eq_true, decide_eq_true_eq]
      exact rankResults_pos sims docs k

lemma mem_zip_getElem {a : List ℚ} {b : List Doc} {p : ℚ × Doc} (h : p ∈ a.zip b) :
    ∃ (i : Nat) (h1 : i < a.length) (h2 : i < b.length), a[i] = p.1 ∧ b[i] = p.2 := by
  rcases List.mem_iff_getElem.mp h with ⟨i, hi, hp⟩
  have h1 : i < a.length := by
    have := hi; simp only [List.length_zip] at this; omega
  have h2 : i < b.length := by
    have := hi; simp only [List.length_zip] at this; omega
  refine ⟨i, h1, h2, ?_, ?_⟩
  · rw [List.getElem_zip] at hp
    exact congrArg Prod.fst hp
  · rw [List.getElem_zip] at hp
    exact congrArg Prod.snd hp

lemma transformAll_ok {v : Vectorizer} :
    ∀ {l : List String} {ys : List (List ℚ)}, transformAll v l = .ok ys →
      ys.length = l.length ∧
      ∀ i (h1 : i < l.length) (h2 : i < ys.length), v.transform l[i] = .ok ys[i] := by
  intro l
  induction l with
  | nil =>
    intro ys h
    unfold transformAll at h
    cases h
    exact ⟨rfl, by intro i h1 _; cases h1⟩
  | cons s rest ih =>
    intro ys h
    unfold transformAll at h
    cases ht : v.transform s with
    | error e => rw [ht] at h; cases h
    | ok vec =>
      rw [ht] at h
      cases htr : transformAll v rest with
      | error e => rw [htr] at h; cases h
      | ok vecs =>
        rw [htr] at h
        cases h
        rcases ih htr with ⟨hlen, hidx⟩
        refine ⟨by simp [hlen], ?_⟩
        intro i h1 h2
        cases i with
        | zero => simpa using ht
        | succ j =>
          have hj1 : j < rest.length := by simpa using h1
          have hj2 : j < vecs.length := by simpa using h2
          simpa using hidx j hj1 hj2

lemma mem_rankResults {sims : List ℚ} {docs : List Doc} {k : Nat} {r : SearchResult}
    (h : r ∈ rankResults sims docs k) :
    ∃ p, p ∈ sims.zip docs ∧ 0 < p.1 ∧
      r = { content := p.2.content, metadata := p.2.metadata, relevance_score := p.1 } := by
  unfold rankResults at h
  rcases List.mem_map.mp h with ⟨p, hp, rfl⟩
  have h1 : p ∈ (sortDesc (sims.zip docs)).take k := List.mem_of_mem_filter hp
  have hpos : 0 < p.1 := by simpa using List.of_mem_filter hp
  exact ⟨p, mem_sortDesc.mp (List.take_subset _ _ h1), hpos, rfl⟩

/-- C5. With a type filter, the lexical search restricts the candidate set
to chunks of the requested type before scoring, recomputes term-weight rows
for the filtered subset through `vectorizer.transform`, and every returned
result's metadata type equals the filter. -/
theorem fallbackSearch_type_filter (env : Env) (st : FallbackState) (q : String)
    (k : Nat) (ft : String) (r : SearchResult) (hft : ft ≠ "")
    (hr : r ∈ fallbackSearch env st q k (some ft)) :
    r.metadata.type = ft ∧
    ∃ v d, st.vectorizer = some v ∧
      d ∈ st.documents.filter (fun d => d.metadata.type = ft) ∧
      r.content = d.content ∧ r.metadata = d.metadata ∧
      ∃ qv dv, v.transform q = .ok qv ∧ v.transform d.content = .ok dv ∧
        r.relevance_score = env.cosSim qv dv := by
  simp only [fallbackSearch] at hr
  split at hr
  · cases hr
  split at hr
  · cases hr
  next v hv =>
    split at hr
    · cases hr
    split at hr
    · cases hr
    next qv hq =>
      split at hr
      · cases hr
      next vecs hvecs =>
        rcases mem_rankResults hr with ⟨p, hpz, hpos, rfl⟩
        rcases mem_zip_getElem hpz with ⟨i, h1, h2, hsim, hdoc⟩
        have hvl : i < vecs.length := by simpa using h1
        have hfl : i < ((st.documents.filter fun d => d.metadata.type = ft).map
            (fun x => x.content)).length := by simpa using h2
        have htr := (transformAll_ok hvecs).2 i hfl hvl
        have hmem : p.2 ∈ st.documents.filter fun d => d.metadata.type = ft :=
          hdoc ▸ List.getElem_mem h2
        have htype : p.2.metadata.type = ft := by
          simpa using List.of_mem_filter hmem
        refine ⟨htype, v, p.2, hv, hmem, rfl, rfl, qv, vecs[i], hq, ?_, ?_⟩
        · have hc : ((st.documents.filter fun d => d.metadata.type = ft).map
              (fun x => x.content))[i] = p.2.content := by
            rw [List.getElem_map]
            exact congrArg Doc.content hdoc
          rw [hc] at htr
          exact htr
        · have hm : (vecs.map (env.cosSim qv))[i] = env.cosSim qv vecs[i] :=
            List.getElem_map _
          exact hsim.symm.trans hm

/-- Witness for C5: the demo corpus, filtered to `"framework"`, returns the
framework document with a freshly transformed score. -/
theorem fallbackSearch_type_filter_witness :
    demoResult.metadata.type = "framework" ∧
    ∃ v d, (fallbackInitialize demoEnv).vectorizer = some v ∧
      d ∈ (fallbackInitialize demoEnv).documents.filter
        (fun d => d.metadata.type = "framework") ∧
      demoResult.content = d.content ∧ demoResult.metadata = d.metadata ∧
      ∃ qv dv, v.transform "x" = .ok qv ∧ v.transform d.content = .ok dv ∧
        demoResult.relevance_score = demoEnv.cosSim qv dv :=
  fallbackSearch_type_filter demoEnv (fallbackInitialize demoEnv) "x" 3 "framework"
    demoResult (by decide) (by decide)

/-- C3. `rebuild_knowledge_base` is idempotent for an unchanged corpus:
a second rebuild returns exactly the state of the first, so the chunk
count and the top-1 result of any fixed probe query agree. -/
theorem engineRebuild_idempotent (env : Env) (e : Engine) (q : String)
    (h : rebuildSafe env e) :
    (engineRebuild env e).bind (engineRebuild env) = engineRebuild env e ∧
    ((engineRebuild env e).bind (engineRebuild env)).map chunkCount =
      (engineRebuild env e).map chunkCount ∧
    ((engineRebuild env e).bind (engineRebuild env)).map
        (fun e2 => engineSearch env e2 q 1 none) =
      (engineRebuild env e).map (fun e1 => engineSearch env e1 q 1 none) := by
  have hb : (engineRebuild env e).bind (engineRebuild env) = engineRebuild env e := by
    cases e with
    | semantic ss =>
      rcases h with h | h <;> simp [engineRebuild, h, Except.bind]
    | lexical fs =>
      by_cases hl : loadKnowledgeBase env.corpus = []
      · simp [engineRebuild, fallbackRebuild, hl, Except.map, Except.bind]
      · rcases h with h | h

        · cases hv : fs.vectorizer with
          | none => rw [hv] at h; cases h
          | some v =>
            simp [engineRebuild, fallbackRebuild, hl, hv, List.isEmpty_iff,
              Except.map, Except.bind]
        · exact absurd h hl
  exact ⟨hb, by rw [hb], by rw [hb]⟩

/-- Witness for C3 on the demo corpus with the lexical backend. -/
theorem engineRebuild_idempotent_witness :
    (engineRebuild demoEnv (.lexical (fallbackInitialize demoEnv))).bind
        (engineRebuild demoEnv) =
      engineRebuild demoEnv (.lexical (fallbackInitialize demoEnv)) ∧
    ((engineRebuild demoEnv (.lexical (fallbackInitialize demoEnv))).bind
        (engineRebuild demoEnv)).map chunkCount =
      (engineRebuild demoEnv (.lexical (fallbackInitialize demoEnv))).map chunkCount ∧
    ((engineRebuild demoEnv (.lexical (fallbackInitialize demoEnv))).bind
        (engineRebuild demoEnv)).map
        (fun e2 => engineSearch demoEnv e2 "需求" 1 none) =
      (engineRebuild demoEnv (.lexical (fallbackInitialize demoEnv))).map
        (fun e1 => engineSearch demoEnv e1 "需求" 1 none) :=
  engineRebuild_idempotent demoEnv (.lexical (fallbackInitialize demoEnv)) "需求"
    (Or.inl rfl)

lemma dropWhile_cons_of_neg {p : Char → Bool} {c : Char} {l : List Char}
    (h : p c = false) : (c :: l).dropWhile p = c :: l := by
  simp [List.dropWhile_cons, h]

lemma dropWhile_append_of_ne_nil {p : Char → Bool} {u : List Char} (v : List Char)
    (h : u.dropWhile p ≠ []) : (u ++ v).dropWhile p = u.dropWhile p ++ v := by
  induction u with
  | nil => exact absurd rfl h
  | cons c u' ih =>
    by_cases hc : p c
    · have h' : u'.dropWhile p ≠ [] := by
        simpa [List.dropWhile_cons, hc] using h
      simp [List.dropWhile_cons, hc, ih h']
    · simp [List.dropWhile_cons, hc]

lemma dropWhile_ws_nl {l : List Char} :
    ('\n' :: l).dropWhile Char.isWhitespace = l.dropWhile Char.isWhitespace := by
  simp [List.dropWhile_cons, Char.isWhitespace]

lemma dropWhile_ne_nil_of_mem {p : Char → Bool} {x : Char} {l : List Char}
    (hx : x ∈ l) (hpx : p x = false) : l.dropWhile p ≠ [] := by
  induction l with
  | nil => cases hx
  | cons c t ih =>
    by_cases hc : p c
    · rcases List.mem_cons.mp hx with rfl | hx'
      · exact absurd hc (by simp [hpx])
      · simpa [List.dropWhile_cons, hc] using ih hx'
    · simp [List.dropWhile_cons, hc]

/-- The conditions of `trimmedNE`, phrased on the character list. -/
lemma pyStripL_chunks :
    ∀ l : List (List Char),
      (∀ cs ∈ l, cs ≠ [] ∧ (cs.headD 'x').isWhitespace = false ∧
        (cs.reverse.headD 'x').isWhitespace = false) →
      pyStripL (joinL l) = blankJoinL l := by
  intro l
  induction l with
  | nil => intro _; rfl
  | cons cs rest ih =>
    intro h
    rcases h cs (List.mem_cons_self cs rest) with ⟨hne, hhead, hlast⟩
    rcases List.exists_cons_of_ne_nil hne with ⟨c, cs', rfl⟩
    have hc : c.isWhitespace = false := by simpa using hhead
    have hrevne : (c :: cs').reverse ≠ [] := by simp
    rcases List.exists_cons_of_ne_nil hrevne with ⟨d, r', hrev⟩
    have hd : d.isWhitespace = false := by
      have := hlast
      rw [hrev] at this
      simpa using this
    cases rest with
    | nil =>
      show pyStripL ((c :: cs') ++ ['\n', '\n']) = c :: cs'
      unfold pyStripL
      rw [List.cons_append, dropWhile_cons_of_neg hc]
      rw [show (c :: (cs' ++ ['\n', '\n'])).reverse
            = '\n' :: '\n' :: (c :: cs').reverse by simp]
      rw [dropWhile_ws_nl, dropWhile_ws_nl]
      rw [hrev, dropWhile_cons_of_neg hd, ← hrev, List.reverse_reverse]
    | cons cs2 rest2 =>
      rcases h cs2 (List.mem_cons_of_mem _ (List.mem_cons_self cs2 rest2)) with
        ⟨hne2, hhead2, _⟩
      rcases List.exists_cons_of_ne_nil hne2 with ⟨c2, cs2', hcs2⟩
      have hc2 : c2.isWhitespace = false := by
        rw [hcs2] at hhead2; simpa using hhead2
      have hmem2 : c2 ∈ joinL (cs2 :: rest2) := by
        rw [joinL, hcs2]
        exact List.mem_append_left _ (List.mem_cons_self c2 cs2')
      have hJne : (joinL (cs2 :: rest2)).reverse.dropWhile Char.isWhitespace ≠ [] :=
        dropWhile_ne_nil_of_mem (List.mem_reverse.mpr hmem2) hc2
      have hJhead : (joinL (cs2 :: rest2)).dropWhile Char.isWhitespace
          = joinL (cs2 :: rest2) := by
        rw [joinL, hcs2, List.cons_append, dropWhile_cons_of_neg hc2]
      have hIH := ih (fun cs h' => h cs (List.mem_cons_of_mem _ h'))
      have hIH' : ((joinL (cs2 :: rest2)).reverse.dropWhile
          Char.isWhitespace).reverse = blankJoinL (cs2 :: rest2) := by
        have := hIH
        unfold pyStripL at this
        rw [hJhead] at this
        exact this
      show pyStripL ((c :: cs') ++ '\n' :: '\n' :: joinL (cs2 :: rest2))
          = (c :: cs') ++ '\n' :: '\n' :: blankJoinL (cs2 :: rest2)
      unfold pyStripL
      rw [List.cons_append, dropWhile_cons_of_neg hc, ← List.cons_append]
      rw [show ((c :: cs') ++ '\n' :: '\n' :: joinL (cs2 :: rest2)).reverse
            = (joinL (cs2 :: rest2)).reverse ++
              (['\n', '\n'] ++ (c :: cs').reverse) by simp]
      rw [dropWhile_append_of_ne_nil _ hJne]
      rw [List.reverse_append, List.reverse_append]
      rw [hIH']
      simp

lemma contextConcat_acc (l : List SearchResult) :
    ∀ acc : String, l.foldl (fun a r => a ++ r.content ++ "\n\n") acc
      = acc ++ joinAll l := by
  induction l with
  | nil => intro acc; simp [joinAll, String.append_empty]
  | cons r rest ih =>
    intro acc
    rw [List.foldl_cons, ih, joinAll]
    simp only [String.append_assoc]

lemma contextConcat_eq_joinAll (l : List SearchResult) :
    contextConcat l = joinAll l := by
  unfold contextConcat
  rw [contextConcat_acc, String.empty_append]

lemma joinAll_data (l : List SearchResult) :
    (joinAll l).data = joinL (l.map (·.content.data)) := by
  induction l with
  | nil => rfl
  | cons r rest ih =>
    show (r.content ++ "\n\n" ++ joinAll rest).data = _
    rw [String.data_append, String.data_append]
    rw [show ("\n\n" : String).data = ['\n', '\n'] from rfl, ih]
    simp [joinL]

lemma blankLineJoin_data :
    ∀ l : List String, (blankLineJoin l).data = blankJoinL (l.map String.data) := by
  intro l
  induction l with
  | nil => rfl
  | cons s rest ih =>
    cases rest with
    | nil => rfl
    | cons s2 rest2 =>
      show (s ++ "\n\n" ++ blankLineJoin (s2 :: rest2)).data = _
      rw [String.data_append, String.data_append]
      rw [show ("\n\n" : String).data = ['\n', '\n'] from rfl, ih]
      simp [blankJoinL]

/-- C8. `get_dream_framework_context` searches with `k = 3` restricted to
the `"framework"` type and concatenates the result contents with a
blank-line separator (exactly, whenever each content is nonempty with no
surrounding whitespace, which the final `strip()` otherwise removes); a
category missing from the fixed mapping is used verbatim as the query. -/
theorem getDreamFrameworkContext_spec (env : Env) (e : Engine) (comp : String)
    (h : ∀ r ∈ engineSearch env e (componentQuery comp) 3 (some "framework"),
      trimmedNE r.content) :
    getDreamFrameworkContext env e comp =
      blankLineJoin ((engineSearch env e (componentQuery comp) 3
        (some "framework")).map (·.content)) ∧
    (assocLookup (pyLower comp) componentQueries = none →
      componentQuery comp = comp) := by
  constructor
  · unfold getDreamFrameworkContext
    rw [contextConcat_eq_joinAll]
    apply String.ext
    show pyStripL (joinAll _).data = _
    rw [joinAll_data, blankLineJoin_data, List.map_map]
    apply pyStripL_chunks
    intro cs hcs
    rcases List.mem_map.mp hcs with ⟨r, hr, rfl⟩
    exact h r hr
  · intro hl
    unfold componentQuery
    rw [hl]
    rfl

/-- Witness for C8 at an unmapped category on the demo corpus. -/
theorem getDreamFrameworkContext_spec_witness :
    getDreamFrameworkContext demoEnv (engineInitialize demoEnv) "投资分析" =
      blankLineJoin ((engineSearch demoEnv (engineInitialize demoEnv)
        (componentQuery "投资分析") 3 (some "framework")).map (·.content)) ∧
    componentQuery "投资分析" = "投资分析" :=
  ⟨(getDreamFrameworkContext_spec demoEnv (engineInitialize demoEnv) "投资分析"
      (by decide)).1,
   (getDreamFrameworkContext_spec demoEnv (engineInitialize demoEnv) "投资分析"
      (by decide)).2 (by decide)⟩

/-- C4 counterexample.  The claim that every item stored in the lexical
fallback index is a chunk of the chunk corpus fails: on a concrete corpus
whose single framework file is longer than the chunk size, the fallback
index stores (and can return) the whole un-chunked document, which is not
among the chunks the semantic index stores. -/
theorem fallback_stores_unchunked_counterexample :
    "DREAM需求分析框架" ∈ ((fallbackInitialize demoSemEnv).documents.map (·.content)) ∧
    semanticInitialize demoSemEnv = .ok { collection := chunkCorpus demoSemEnv } ∧
    "DREAM需求分析框架" ∉ ((chunkCorpus demoSemEnv).map (·.content)) :=
  ⟨by decide, rfl, by decide⟩

/-- C4 amended.  The two backends do not share a storage unit: the lexical
fallback engine stores whole documents — every stored item's content is the
complete content of one source file, with no splitting applied — while the
semantic index stores the chunk corpus produced by the Chunker. -/
theorem fallback_stores_whole_documents (env : Env) (d : Doc)
    (hd : d ∈ (fallbackInitialize env).documents)
    (hsetup : env.semanticSetup = .ok ()) (hcnt : env.countCheckOk = true)
    (hempty : env.existingCollection = []) :
    (∃ f, f ∈ env.corpus ∧ d.content = f.content ∧ d.metadata.source = f.path) ∧
    semanticInitialize env = .ok { collection := chunkCorpus env } := by
  constructor
  · have hdocs : (fallbackInitialize env).documents = loadKnowledgeBase env.corpus := by
      by_cases he : (loadKnowledgeBase env.corpus).isEmpty
      · simp [fallbackInitialize, he]
      · simp [fallbackInitialize, he]
    rw [hdocs] at hd
    rcases List.mem_filterMap.mp hd with ⟨f, hf, hif⟩
    by_cases hcond :
        (f.ext = ".md" ∨ f.ext = ".txt" ∨ f.ext = ".json") ∧ pyStrip f.content ≠ ""
    · rw [if_pos hcond] at hif
      obtain rfl : mkDoc f = d := Option.some.inj hif
      exact ⟨f, hf, rfl, rfl⟩
    · rw [if_neg hcond] at hif
      cases hif
  · simp [semanticInitialize, hsetup, hcnt, hempty]

/-- Witness for the amended C4 on the demo corpus. -/
theorem fallback_stores_whole_documents_witness :
    (∃ f, f ∈ demoSemEnv.corpus ∧ demoFrameworkDoc.content = f.content ∧
      demoFrameworkDoc.metadata.source = f.path) ∧
    semanticInitialize demoSemEnv = .ok { collection := chunkCorpus demoSemEnv } :=
  fallback_stores_whole_documents demoSemEnv demoFrameworkDoc (by decide) rfl rfl rfl

lemma ofDigs_natDigitsAux : ∀ fuel n, n ≤ fuel → ofDigs (natDigitsAux fuel n) = n := by
  intro fuel
  induction fuel with
  | zero =>
    intro n hn
    have h0 : n = 0 := Nat.le_zero.mp hn
    subst h0
    rfl
  | succ fuel ih =>
    intro n hn
    cases n with
    | zero => rfl
    | succ m =>
      show ofDigs ((m + 1) % 10 :: natDigitsAux fuel ((m + 1) / 10)) = m + 1
      have hdiv : (m + 1) / 10 ≤ fuel := by
        have h1 : (m + 1) / 10 < m + 1 := Nat.div_lt_self (Nat.succ_pos m) (by norm_num)
        omega
      rw [ofDigs, ih _ hdiv]
      omega

lemma natDigitsAux_lt : ∀ fuel n d, d ∈ natDigitsAux fuel n → d < 10 := by
  intro fuel
  induction fuel with
  | zero => intro n d h; exact absurd h (by simp [natDigitsAux])
  | succ fuel ih =>
    intro n d h
    cases n with
    | zero => exact absurd h (by simp [natDigitsAux])
    | succ m =>
      simp only [natDigitsAux] at h
      rcases List.mem_cons.mp h with rfl | h'
      · exact Nat.mod_lt _ (by norm_num)
      · exact ih _ _ h'

lemma natDigits_inj {m n : Nat} (h : natDigits m = natDigits n) : m = n := by
  have hm := ofDigs_natDigitsAux m m le_rfl
  have hn := ofDigs_natDigitsAux n n le_rfl
  calc m = ofDigs (natDigitsAux m m) := hm.symm
    _ = ofDigs (natDigitsAux n n) := congrArg ofDigs h
    _ = n := hn

lemma digitChar_inj_lt : ∀ d, d < 10 → ∀ e, e < 10 → digitChar d = digitChar e → d = e := by
  decide

lemma map_digitChar_inj : ∀ l1 l2 : List Nat, (∀ d ∈ l1, d < 10) → (∀ d ∈ l2, d < 10) →
    l1.map digitChar = l2.map digitChar → l1 = l2 := by
  intro l1
  induction l1 with
  | nil =>
    intro l2 _ _ h
    cases l2 with
    | nil => rfl
    | cons b t => simp at h
  | cons a t ih =>
    intro l2 h1 h2 h
    cases l2 with
    | nil => simp at h
    | cons b t2 =>
      simp only [List.map_cons, List.cons.injEq] at h
      have ha := digitChar_inj_lt a (h1 a (List.mem_cons_self a t)) b
        (h2 b (List.mem_cons_self b t2)) h.1
      have ht := ih t2 (fun d hd => h1 d (List.mem_cons_of_mem _ hd))
        (fun d hd => h2 d (List.mem_cons_of_mem _ hd)) h.2
      rw [ha, ht]

lemma natStr_eq_zero_imp {n : Nat} (hn : n ≠ 0)
    (h : ((natDigits n).map digitChar).reverse = ['0']) : False := by
  have h1 : (natDigits n).map digitChar = ['0'] := by
    have h2 := congrArg List.reverse h
    simpa using h2
  cases hnd : natDigits n with
  | nil => rw [hnd] at h1; simp at h1
  | cons d rest =>
    rw [hnd, List.map_cons] at h1
    simp only [List.cons.injEq] at h1
    have hrest : rest = [] := List.map_eq_nil_iff.mp h1.2
    have hdmem : d ∈ natDigits n := by rw [hnd]; exact List.mem_cons_self d rest
    have hd10 : d < 10 := natDigitsAux_lt n n d hdmem
    have hd0 : d = 0 := digitChar_inj_lt d hd10 0 (by norm_num) h1.1
    have hv := ofDigs_natDigitsAux n n le_rfl
    have : n = 0 := by
      rw [show natDigitsAux n n = natDigits n from rfl, hnd, hrest, hd0] at hv
      simpa [ofDigs] using hv.symm
    exact hn this

lemma natStr_inj : Function.Injective natStr := by
  intro m n h
  by_cases hm : m = 0 <;> by_cases hn : n = 0
  · rw [hm, hn]
  · exfalso
    rw [natStr, if_pos hm, natStr, if_neg hn] at h
    have hdata : ((natDigits n).map digitChar).reverse = ['0'] :=
      (congrArg String.data h).symm
    exact natStr_eq_zero_imp hn hdata
  · exfalso
    rw [natStr, if_neg hm, natStr, if_pos hn] at h
    have hdata : ((natDigits m).map digitChar).reverse = ['0'] :=
      congrArg String.data h
    exact natStr_eq_zero_imp hm hdata
  · rw [natStr, if_neg hm, natStr, if_neg hn] at h
    have hdata : ((natDigits m).map digitChar).reverse
        = ((natDigits n).map digitChar).reverse := congrArg String.data h
    have hmap : (natDigits m).map digitChar = (natDigits n).map digitChar :=
      List.reverse_injective hdata
    exact natDigits_inj (map_digitChar_inj _ _
      (fun d hd => natDigitsAux_lt m m d hd) (fun d hd => natDigitsAux_lt n n d hd) hmap)

lemma mkId_inj (t : Nat) : Function.Injective (mkId t) := by
  intro i j h
  apply natStr_inj
  apply String.ext
  have hd := congrArg String.data h
  simp only [mkId, String.data_append, List.append_assoc] at hd
  exact List.append_cancel_left (List.append_cancel_left (List.append_cancel_left hd))

lemma mkIds_nodup (t n : Nat) : ((List.range n).map (mkId t)).Nodup :=
  (List.nodup_range n).map (mkId_inj t)

lemma toBatchesAux_le (fuel : Nat) :
    ∀ l : List Entry, ∀ b ∈ toBatchesAux fuel l, b.length ≤ 100 := by
  induction fuel with
  | zero => intro l b hb; exact absurd hb (by simp [toBatchesAux])
  | succ fuel ih =>
    intro l b hb
    cases l with
    | nil => exact absurd hb (by simp [toBatchesAux])
    | cons x rest =>
      simp only [toBatchesAux] at hb
      rcases List.mem_cons.mp hb with rfl | hb'
      · rw [List.length_take]
        exact Nat.min_le_left _ _
      · exact ih _ b hb'

lemma toBatches_le (l : List Entry) : ∀ b ∈ toBatches l, b.length ≤ 100 :=
  toBatchesAux_le l.length l

lemma addBatchLoop_error (env : AddEnv) (e : String) :
    ∀ (bs : List (List Entry)) (n bn : Nat) (col : List Entry),
      n ≤ bn → bn < n + bs.length →
      (∀ m, n ≤ m → m < bn → env.collectionAdd m = .ok ()) →
      env.collectionAdd bn = .error e →
      addBatchLoop env bs n col = .error e := by
  intro bs
  induction bs with
  | nil =>
    intro n bn col h1 h2 _ _
    simp only [List.length_nil] at h2
    omega
  | cons b rest ih =>
    intro n bn col h1 h2 hok herr
    by_cases hn : n = bn
    · subst hn
      simp [addBatchLoop, herr]
    · have hlt : n < bn := lt_of_le_of_ne h1 hn
      have hokn : env.collectionAdd n = .ok () := hok n le_rfl hlt
      have hb2 : bn < (n + 1) + rest.length := by
        simp only [List.length_cons] at h2
        omega
      simp only [addBatchLoop, hokn]
      exact ih (n + 1) bn (col ++ b) hlt hb2
        (fun m hm1 hm2 => hok m (by omega) hm2) herr

/-- C7 counterexample.  When a batch insert fails, `add_documents`
re-raises the backend's exception unchanged after logging: the propagated
error is exactly the backend's message, which contains no digit and
therefore does not name the batch index. -/
theorem addDocuments_error_unnamed_batch :
    addDocuments demoAddEnvFail 999 [demoDoc] [] = .error "storage offline" ∧
    (("storage offline" : String).data.all fun c => !c.isDigit) = true :=
  ⟨rfl, rfl⟩

/-- C7 amended.  For a non-empty document list, `add_documents` assigns
pairwise-distinct ids `doc_<timestamp>_<ordinal>`, inserts in batches of at
most 100, and a failure at any batch aborts the call by propagating the
backend's error unchanged — it does not silently skip the batch, but the
error does not name the batch index. -/
theorem addDocuments_batching (env : AddEnv) (t : Nat) (docs : List Doc)
    (col : List Entry) (embs : List (List ℚ)) (bn : Nat) (e : String)
    (hne : docs ≠ [])
    (hemb : env.embedDocuments (docs.map (·.content)) = .ok embs)
    (hok : ∀ m, m < bn → env.collectionAdd m = .ok ())
    (herr : env.collectionAdd bn = .error e)
    (hbn : bn < (toBatches (mkEntries t docs embs)).length) :
    ((List.range docs.length).map (mkId t)).Nodup ∧
    (∀ b ∈ toBatches (mkEntries t docs embs), b.length ≤ 100) ∧
    addDocuments env t docs col = .error e := by
  refine ⟨mkIds_nodup t docs.length, toBatches_le _, ?_⟩
  unfold addDocuments
  rw [if_neg (by simp [List.isEmpty_iff, hne]), hemb]
  show addBatchLoop env (toBatches (mkEntries t docs embs)) 0 col = .error e
  exact addBatchLoop_error env e _ 0 bn col (Nat.zero_le bn)
    (by simpa using hbn) (fun m _ hm2 => hok m hm2) herr

/-- Witness for the amended C7: one document, failure at batch 0. -/
theorem addDocuments_batching_witness :
    ((List.range (1 : Nat)).map (mkId 999)).Nodup ∧
    (∀ b ∈ toBatches (mkEntries 999 [demoDoc] [[1]]), b.length ≤ 100) ∧
    addDocuments demoAddEnvFail 999 [demoDoc] [] = .error "storage offline" :=
  addDocuments_batching demoAddEnvFail 999 [demoDoc] [] [[1]] 0 "storage offline"
    (by decide) rfl (fun m hm => absurd hm (Nat.not_lt_zero m)) rfl (by decide)

end DreamRag
